import Mathlib

set_option maxHeartbeats 1600000

/- Verification of the runtime_v2 actor runtime.

The development shallowly embeds the core of the repository:
the structured-value (JSON-compatible) payload codec used at the sandbox
boundary, the Component Host entry points (src/wasm.rs), the mailbox run
loop (src/lib.rs), the Chain Emitter ring buffer (src/chain_emitter.rs),
and the capability host functions (src/capabilities.rs).  Sandbox
invocations are modelled as oracle functions supplied to the embedded
WasmActor, since the component binary is external input. -/

/-- Structured values crossing the sandbox boundary.  Modelled from the spec:
the repository serializes state and messages with the external serde_json
crate, whose value type is a JSON tree (null, bool, number, string, array,
object).  Numbers are modelled as integers; object fields as an ordered
association list. -/
inductive Value where
  | null
  | bool (b : Bool)
  | num (n : Int)
  | str (s : List Char)
  | arr (elems : List Value)
  | obj (fields : List (List Char × Value))

/-- The double-quote character of the JSON syntax. -/
def quoteChar : Char := Char.ofNat 34

/-- The backslash character of the JSON syntax. -/
def backslashChar : Char := Char.ofNat 92

/-- The opening-brace character of the JSON syntax. -/
def lbraceChar : Char := Char.ofNat 123

/-- The closing-brace character of the JSON syntax. -/
def rbraceChar : Char := Char.ofNat 125

/-- Decimal digit character for a digit value below ten. -/
def digitChar (n : Nat) : Char :=
  match n with
  | 0 => '0' | 1 => '1' | 2 => '2' | 3 => '3' | 4 => '4'
  | 5 => '5' | 6 => '6' | 7 => '7' | 8 => '8' | _ => '9'

/-- Fuel-indexed decimal printer for naturals (most significant digit first).
The fuel only forces structural termination; `natChars` supplies enough. -/
def natCharsAux (fuel n : Nat) : List Char :=
  match fuel with
  | 0 => [digitChar (n % 10)]
  | fuel + 1 =>
    if n < 10 then [digitChar n]
    else natCharsAux fuel (n / 10) ++ [digitChar (n % 10)]

/-- Decimal digit characters of a natural number. -/
def natChars (n : Nat) : List Char := natCharsAux n n

/-- Decimal characters of an integer: optional minus sign, then digits. -/
def intChars : Int → List Char
  | .ofNat m => natChars m
  | .negSucc m => '-' :: natChars (m + 1)

/-- Lower-case hexadecimal digit character for a value below sixteen. -/
def hexChar (n : Nat) : Char :=
  match n with
  | 0 => '0' | 1 => '1' | 2 => '2' | 3 => '3' | 4 => '4'
  | 5 => '5' | 6 => '6' | 7 => '7' | 8 => '8' | 9 => '9'
  | 10 => 'a' | 11 => 'b' | 12 => 'c' | 13 => 'd' | 14 => 'e' | _ => 'f'

/-- JSON escaping of one string character: backslash and quote get a
backslash escape, control characters a four-digit unicode escape, and
every other character stands for itself. -/
def escapeChar (c : Char) : List Char :=
  if c = backslashChar then [backslashChar, backslashChar]
  else if c = quoteChar then [backslashChar, quoteChar]
  else if c.toNat < 32 then
    [backslashChar, 'u', '0', '0', hexChar (c.toNat / 16), hexChar (c.toNat % 16)]
  else [c]

/-- JSON escaping of a whole string body. -/
def escapeList : List Char → List Char
  | [] => []
  | c :: cs => escapeChar c ++ escapeList cs

/-- A JSON string literal: quote, escaped body, quote. -/
def encodeStr (s : List Char) : List Char := quoteChar :: escapeList s ++ [quoteChar]

mutual
/-- Byte encoding of a structured value, as the JSON text serde_json
produces (no whitespace; characters stand in for UTF-8 bytes). -/
def encodeV : Value → List Char
  | .null => 'n' :: 'u' :: 'l' :: 'l' :: []
  | .bool b => if b then 't' :: 'r' :: 'u' :: 'e' :: [] else 'f' :: 'a' :: 'l' :: 's' :: 'e' :: []
  | .num n => intChars n
  | .str s => encodeStr s
  | .arr [] => ['[', ']']
  | .arr (v :: vs) => '[' :: (encodeV v ++ encodeElems vs) ++ [']']
  | .obj [] => [lbraceChar, rbraceChar]
  | .obj (f :: fs) =>
    lbraceChar :: (encodeStr f.1 ++ ':' :: encodeV f.2 ++ encodeFields fs) ++ [rbraceChar]
/-- Comma-prefixed encodings of the remaining array elements. -/
def encodeElems : List Value → List Char
  | [] => []
  | v :: vs => ',' :: encodeV v ++ encodeElems vs
/-- Comma-prefixed encodings of the remaining object fields. -/
def encodeFields : List (List Char × Value) → List Char
  | [] => []
  | f :: fs => ',' :: encodeStr f.1 ++ ':' :: encodeV f.2 ++ encodeFields fs
end

/-- Test for a decimal digit character. -/
def isDigit (c : Char) : Bool :=
  if 48 ≤ c.toNat then (if c.toNat ≤ 57 then true else false) else false

/-- Numeric value of a decimal digit character. -/
def digitVal (c : Char) : Nat := c.toNat - 48

/-- Numeric value of a lower-case hexadecimal digit character. -/
def hexVal (c : Char) : Option Nat :=
  if 48 ≤ c.toNat ∧ c.toNat ≤ 57 then some (c.toNat - 48)
  else if 97 ≤ c.toNat ∧ c.toNat ≤ 102 then some (c.toNat - 87)
  else none

/-- Value of a most-significant-first digit-character run. -/
def natOfDigits (ds : List Char) : Nat := ds.foldl (fun a c => a * 10 + digitVal c) 0

/-- Parse a maximal nonempty digit run into a natural number. -/
def parseNat (l : List Char) : Option (Nat × List Char) :=
  let ds := l.takeWhile isDigit
  if ds.isEmpty then none else some (natOfDigits ds, l.dropWhile isDigit)

/-- Parse a JSON string body (after the opening quote) up to and including
the closing quote, undoing the escapes `encodeStr` can produce. -/
def pStr : List Char → Option (List Char × List Char)
  | [] => none
  | c :: cs =>
    if c = quoteChar then some ([], cs)
    else if c = backslashChar then
      match cs with
      | [] => none
      | e :: cs1 =>
        if e = quoteChar then (pStr cs1).map (fun p => (quoteChar :: p.1, p.2))
        else if e = backslashChar then (pStr cs1).map (fun p => (backslashChar :: p.1, p.2))
        else if e = 'u' then
          match cs1 with
          | h1 :: h2 :: h3 :: h4 :: cs2 =>
            match hexVal h1, hexVal h2, hexVal h3, hexVal h4 with
            | some a, some b, some c2, some d =>
              (pStr cs2).map
                (fun p => (Char.ofNat (((a * 16 + b) * 16 + c2) * 16 + d) :: p.1, p.2))
            | _, _, _, _ => none
          | _ => none
        else none
    else (pStr cs).map (fun p => (c :: p.1, p.2))

/-- Which production the combined JSON parser is working on: a single value,
a nonempty comma-separated element list, or a nonempty field list. -/
inductive PMode where
  | val
  | elems
  | fields

/-- Result of the combined JSON parser, tagged by production. -/
inductive PRes where
  | val (v : Value) (rest : List Char)
  | elems (vs : List Value) (rest : List Char)
  | fields (fs : List (List Char × Value)) (rest : List Char)

/-- Projection of a parse result onto the value production. -/
def resVal : Option PRes → Option (Value × List Char)
  | some (.val v r) => some (v, r)
  | _ => none

/-- Projection of a parse result onto the element-list production. -/
def resElems : Option PRes → Option (List Value × List Char)
  | some (.elems vs r) => some (vs, r)
  | _ => none

/-- Projection of a parse result onto the field-list production. -/
def resFields : Option PRes → Option (List (List Char × Value) × List Char)
  | some (.fields fs r) => some (fs, r)
  | _ => none

/-- One value-production step of the JSON parser; `pe` and `pf` parse the
element-list and field-list productions at the next fuel level. -/
def pjValStep (pe pf : List Char → Option PRes) : List Char → Option PRes
  | [] => none
  | c :: rest =>
    if c = 'n' then
      if rest.take 3 = ['u', 'l', 'l'] then some (.val .null (rest.drop 3)) else none
    else if c = 't' then
      if rest.take 3 = ['r', 'u', 'e'] then some (.val (.bool true) (rest.drop 3)) else none
    else if c = 'f' then
      if rest.take 4 = ['a', 'l', 's', 'e'] then some (.val (.bool false) (rest.drop 4)) else none
    else if c = quoteChar then
      (pStr rest).map (fun p => .val (.str p.1) p.2)
    else if c = '-' then
      (parseNat rest).map (fun p => .val (.num (-(p.1 : Int))) p.2)
    else if isDigit c then
      (parseNat (c :: rest)).map (fun p => .val (.num (p.1 : Int)) p.2)
    else if c = '[' then
      match rest with
      | [] => none
      | r0 :: r =>
        if r0 = ']' then some (.val (.arr []) r)
        else
          match resElems (pe (r0 :: r)) with
          | none => none
          | some p => some (.val (.arr p.1) p.2)
    else if c = lbraceChar then
      match rest with
      | [] => none
      | r0 :: r =>
        if r0 = rbraceChar then some (.val (.obj []) r)
        else
          match resFields (pf (r0 :: r)) with
          | none => none
          | some p => some (.val (.obj p.1) p.2)
    else none

/-- One element-list step of the JSON parser: a value, then either a comma
and the rest of the list or the closing bracket. -/
def pjElemsStep (pv pe : List Char → Option PRes) (l : List Char) : Option PRes :=
  match resVal (pv l) with
  | none => none
  | some p =>
    match p.2 with
    | [] => none
    | d :: r2 =>
      if d = ',' then
        match resElems (pe r2) with
        | none => none
        | some q => some (.elems (p.1 :: q.1) q.2)
      else if d = ']' then some (.elems [p.1] r2)
      else none

/-- One field-list step of the JSON parser: a key string, a colon, a
value, then either a comma and the rest of the list or the closing brace. -/
def pjFieldsStep (pv pf : List Char → Option PRes) : List Char → Option PRes
  | [] => none
  | c :: rest =>
    if c = quoteChar then
      match pStr rest with
      | none => none
      | some kp =>
        match kp.2 with
        | [] => none
        | d :: r2 =>
          if d = ':' then
            match resVal (pv r2) with
            | none => none
            | some p =>
              match p.2 with
              | [] => none
              | e :: r4 =>
                if e = ',' then
                  match resFields (pf r4) with
                  | none => none
                  | some q => some (.fields ((kp.1, p.1) :: q.1) q.2)
                else if e = rbraceChar then some (.fields [(kp.1, p.1)] r4)
                else none
          else none
    else none

/-- Recursive-descent JSON parser, structural on a fuel counter.  Mode
`val` parses one value; `elems` parses comma-separated values up to and
including the closing bracket; `fields` likewise for object fields up to
the closing brace. -/
def pj : Nat → PMode → List Char → Option PRes
  | 0, _, _ => none
  | fuel + 1, .val, l => pjValStep (pj fuel .elems) (pj fuel .fields) l
  | fuel + 1, .elems, l => pjElemsStep (pj fuel .val) (pj fuel .elems) l
  | fuel + 1, .fields, l => pjFieldsStep (pj fuel .val) (pj fuel .fields) l

/-- Decode a full byte payload as one structured value, requiring the
whole input to be consumed (serde_json from_slice).  Modelled from the
spec: payload bytes must decode as structured data, all per-payload
decode failures surface as errors. -/
def decode (p : List Char) : Option Value :=
  match pj (p.length + 1) PMode.val p with
  | some (PRes.val v []) => some v
  | _ => none

/-- Failure taxonomy of the runtime (spec section 7).  `panicked` models a
Rust panic (an aborting failure such as a failed expect or an
out-of-bounds index), which is distinct from a returned error. -/
inductive Failure where
  | trap
  | exportNotFound
  | signatureMismatch
  | decodeError
  | unsupportedCapability
  | panicked

/-- Lookup of a key in an object's field list (first match wins). -/
def Value.indexFields : List (List Char × Value) → List Char → Value
  | [], _ => .null
  | f :: fs, k => if f.1 = k then f.2 else Value.indexFields fs k

/-- Field access on a structured value, as serde_json indexing by a string
key: the value under the first matching key of an object, and null when
the value is no object or the key is absent. -/
def Value.index : Value → List Char → Value
  | .obj fs, k => Value.indexFields fs k
  | _, _ => .null

/-- View of a structured value as an unsigned 64-bit integer
(serde_json as_u64): some for a nonnegative integer below 2^64. -/
def asU64 (v : Value) : Option Nat :=
  match v with
  | .num n => if 0 ≤ n ∧ n < 18446744073709551616 then some n.toNat else none
  | _ => none

/-- Actor manifest, from src/config.rs (ActorConfig): name, component
binary path, declared interface names, optional HTTP port. -/
structure ActorConfig where
  name : List Char
  component_path : List Char
  interfaces : List (List Char)
  http_port : Option Nat

/-- The canonical HTTP actor interface name. -/
def httpInterfaceName : List Char := "ntwk:simple-http-actor/http-actor".data

/-- ActorConfig::supports_http from src/config.rs: the manifest declares
the HTTP interface. -/
def ActorConfig.supports_http (c : ActorConfig) : Bool :=
  c.interfaces.contains httpInterfaceName

/-- Component Host, from src/wasm.rs (WasmActor).  The compiled component
is external input, so the typed invocations of its `handle` and
`handle-http` exports are oracle functions from (message bytes, state
bytes) to result bytes or a failure; `supports_http` is the flag
WasmActor::from_file copies from the manifest. -/
structure WasmActor where
  supports_http : Bool
  handleFn : List Char → List Char → Except Failure (List Char)
  handleHttpFn : List Char → List Char → Except Failure (List Char)

/-- WasmActor::from_file wiring of the manifest into the host (src/wasm.rs
lines 17-48): the supports_http flag comes from ActorConfig::supports_http. -/
def WasmActor.fromConfig (cfg : ActorConfig)
    (handleFn handleHttpFn : List Char → List Char → Except Failure (List Char)) : WasmActor :=
  ⟨cfg.supports_http, handleFn, handleHttpFn⟩

/-- WasmActor::handle_message from src/wasm.rs lines 88-104: serialize the
message and state, invoke the `handle` export in a fresh sandbox, decode
the returned bytes as the new state, and return the pair of the original
message (echoed as the output) and the new state. -/
def WasmActor.handle_message (a : WasmActor) (msg state : Value) :
    Except Failure (Value × Value) :=
  match a.handleFn (encodeV msg) (encodeV state) with
  | .error e => .error e
  | .ok result =>
    match decode result with
    | some new_state => .ok (msg, new_state)
    | none => .error .decodeError

/-- The request record WasmActor::handle_http serializes for the sandbox
(the serde_json json! literal in src/wasm.rs lines 124-129). -/
def requestValue (method uri : List Char) (headers : List (List Char × List Char))
    (body : Option (List Nat)) : Value :=
  .obj [("method".data, .str method),
        ("uri".data, .str uri),
        ("headers".data, .obj [("fields".data,
          .arr (headers.map fun h => .arr [.str h.1, .str h.2]))]),
        ("body".data, match body with
          | none => .null
          | some bs => .arr (bs.map fun b => .num (b : Int)))]

/-- Per-entry extraction loop of the response-header extraction in
WasmActor::handle_http (src/wasm.rs lines 145-152): entries that are no
arrays are skipped; on an array entry, element 0 is read (a panic when
absent), skipped unless a string, then element 1 likewise.  A panic is an
error result here. -/
def extractHeadersList : List Value → Except Failure (List (List Char × List Char))
  | [] => .ok []
  | it :: rest =>
    match it with
    | .arr [] => .error .panicked
    | .arr (p0 :: tl) =>
      match p0 with
      | .str s0 =>
        match tl with
        | [] => .error .panicked
        | p1 :: _ =>
          match p1 with
          | .str s1 => do
            let r ← extractHeadersList rest
            .ok ((s0, s1) :: r)
          | _ => extractHeadersList rest
      | _ => extractHeadersList rest
    | _ => extractHeadersList rest

/-- Extraction of the response headers in WasmActor::handle_http
(src/wasm.rs lines 143-154): the fields value maps through as_array, with
the empty header list as default when it is no array. -/
def extractHeaders (v : Value) : Except Failure (List (List Char × List Char)) :=
  match v with
  | .arr items => extractHeadersList items
  | _ => .ok []

/-- Extraction of the response body in WasmActor::handle_http (src/wasm.rs
lines 156-158): an array maps each element through as_u64 with default 0,
truncated to a byte; anything else gives no body. -/
def extractBody (v : Value) : Option (List Nat) :=
  match v with
  | .arr items => some (items.map fun it => (asU64 it).getD 0 % 256)
  | _ => none

/-- WasmActor::handle_http from src/wasm.rs lines 106-160: fail with
UnsupportedCapability unless the manifest declared the HTTP interface;
otherwise serialize the request record and state, invoke the
`handle-http` export in a fresh sandbox, decode the response envelope,
and project status (default 500, truncated to 16 bits), headers, body
and new state out of it. -/
def WasmActor.handle_http (a : WasmActor) (method uri : List Char)
    (headers : List (List Char × List Char)) (body : Option (List Nat)) (state : Value) :
    Except Failure (Nat × List (List Char × List Char) × Option (List Nat) × Value) :=
  if ¬ a.supports_http then .error .unsupportedCapability
  else
    match a.handleHttpFn (encodeV (requestValue method uri headers body)) (encodeV state) with
    | .error e => .error e
    | .ok result =>
      match decode result with
      | none => .error .decodeError
      | some response =>
        match extractHeaders (((response.index "response".data).index "headers".data).index
            "fields".data) with
        | .error e => .error e
        | .ok resp_headers =>
          .ok (((asU64 ((response.index "response".data).index "status".data)).getD 500) % 65536,
               resp_headers,
               extractBody ((response.index "response".data).index "body".data),
               response.index "state".data)

/-- Mailbox work item, from src/lib.rs (ActorMessage).  A Regular message
carries a structured value and an optional one-shot reply slot (modelled
by whether the slot is present); an Http message carries a request and
always has a reply slot. -/
inductive ActorMessage where
  | regular (content : Value) (hasResponse : Bool)
  | http (method uri : List Char) (headers : List (List Char × List Char))
      (body : Option (List Nat))

/-- A value delivered through a one-shot reply slot by the run loop. -/
inductive Reply where
  | value (v : Value)
  | httpReply (status : Nat) (headers : List (List Char × List Char))
      (body : Option (List Nat))

/-- One iteration of ActorRuntime::run (src/lib.rs lines 65-84): route the
dequeued message to handle_message or handle_http with the current state;
on success return the reply for the message's slot (when one is present)
and the new state to commit. -/
def processMsg (a : WasmActor) (state : Value) : ActorMessage → Except Failure (Option Reply × Value)
  | .regular content hasResponse =>
    match a.handle_message content state with
    | .error e => .error e
    | .ok r => .ok (if hasResponse then some (.value r.1) else none, r.2)
  | .http method uri headers body =>
    match a.handle_http method uri headers body state with
    | .error e => .error e
    | .ok r => .ok (some (.httpReply r.1 r.2.1 r.2.2.1), r.2.2.2)

/-- ActorRuntime::run from src/lib.rs lines 65-84, over the sequence of
messages the mailbox will yield: process messages in order, committing
the new state after each success; a processing failure propagates out of
the loop (the question-mark operator), ending the run with that failure
before any reply is sent for the failing message.  The result collects
the replies delivered to reply slots in order, the final committed state,
and the failure that ended the loop (none when the mailbox closed). -/
def runLoop (a : WasmActor) : Value → List ActorMessage → List Reply × Value × Option Failure
  | state, [] => ([], state, none)
  | state, msg :: rest =>
    match processMsg a state msg with
    | .ok pr =>
      let r := runLoop a pr.2 rest
      (pr.1.toList ++ r.1, r.2)
    | .error e => ([], state, some e)

/-- Event record, from src/actor.rs: a type tag and structured data. -/
structure Event where
  type_ : List Char
  data : Value

/-- Modelled from the spec: the ChainEvent type lives in the repository's
logging module, which is not part of the sources here; the spec describes
it as an append-only audit record wrapping an Event plus timestamp
metadata, opaque to the core. -/
structure ChainEvent where
  event : Event
  timestamp : Nat

/-- Chain Emitter state, from src/chain_emitter.rs: the bounded history
ring buffer (front of the list is the oldest entry) and its capacity.
The broadcast fanout and console printing do not affect the history. -/
structure ChainEmitter where
  max_history : Nat
  history : List ChainEvent

/-- ChainEmitter::new from src/chain_emitter.rs lines 16-23. -/
def ChainEmitter.new (max_history : Nat) : ChainEmitter := ⟨max_history, []⟩

/-- ChainEmitter::emit from src/chain_emitter.rs lines 25-39: when the
buffer is at or above capacity the oldest entry is popped, then the new
event is pushed at the back. -/
def ChainEmitter.emit (ce : ChainEmitter) (e : ChainEvent) : ChainEmitter :=
  ⟨ce.max_history,
   (if ce.max_history ≤ ce.history.length then ce.history.drop 1 else ce.history) ++ [e]⟩

/-- ChainEmitter::get_history from src/chain_emitter.rs lines 45-47: a
point-in-time copy of the buffer, oldest first. -/
def ChainEmitter.get_history (ce : ChainEmitter) : List ChainEvent := ce.history

/-- Emit a sequence of events in order. -/
def ChainEmitter.emitAll (ce : ChainEmitter) (es : List ChainEvent) : ChainEmitter :=
  es.foldl ChainEmitter.emit ce

/-- Externally visible effects of the send host function of
src/capabilities.rs: recording an event in the chain, and an outbound
HTTP POST of a payload to an address. -/
inductive HostAction where
  | recordChainEvent (e : Event)
  | httpPost (address : List Char) (payload : Value)

/-- The actor-message Event that fn send constructs (src/capabilities.rs
lines 211-217). -/
def actorMessageEvent (address : List Char) (m : Value) : Event :=
  ⟨"actor-message".data,
   .obj [("address".data, .str address), ("message".data, m)]⟩

/-- Model of fn send from src/capabilities.rs lines 209-240: parse the
payload as structured data (a panic when that fails, by expect), build
the actor-message event, record it in the chain and await the
acknowledgement, and only then POST the payload to the address.  The
returned action list is the ordered sequence of externally visible
effects of the spawned task. -/
def send (address : List Char) (msg : List Char) : Except Failure (List HostAction) :=
  match decode msg with
  | none => .error .panicked
  | some m =>
    .ok [.recordChainEvent (actorMessageEvent address m), .httpPost address m]

/-- The send host function the Base capability registers in the linker
(BaseActorCapability::setup_host_functions, src/capabilities.rs lines
81-88): it simply calls fn send. -/
def baseSendHost (address : List Char) (msg : List Char) : Except Failure (List HostAction) :=
  send address msg

/-- The send host function the Http capability registers in the linker
(HttpCapability::setup_host_functions, src/capabilities.rs lines
146-155): the closure hits a todo-macro and panics before the call to fn
send that follows it, for every input. -/
def httpSendHost (_address : List Char) (_msg : List Char) : Except Failure (List HostAction) :=
  .error .panicked

/-- A remainder that cannot extend an encoded value: empty, or headed by
one of the three delimiters the encoder ever places after a value. -/
def Delim : List Char → Prop
  | [] => True
  | c :: _ => c = ',' ∨ c = ']' ∨ c = rbraceChar

/-- Sandbox oracle that traps on every invocation. -/
def trapActor : WasmActor :=
  ⟨false, fun _ _ => .error .trap, fun _ _ => .error .trap⟩

/-- Sandbox oracle whose handle export traps exactly on four-byte message
encodings (such as the encoding of null) and otherwise echoes the message
bytes back, which is a valid state encoding. -/
def mixedActor : WasmActor :=
  ⟨false, fun m _ => if m.length = 4 then .error .trap else .ok m, fun _ _ => .error .trap⟩

/-- Sandbox oracle whose handle export always returns the encoding of the
state with count one, regardless of its input. -/
def incActor : WasmActor :=
  ⟨false, fun _ _ => .ok (encodeV (.obj [("count".data, .num 1)])), fun _ _ => .error .trap⟩

/-- Sandbox oracle whose handle export echoes the message bytes back. -/
def echoActor : WasmActor :=
  ⟨false, fun m _ => .ok m, fun _ _ => .error .trap⟩

/-- An HTTP response envelope whose headers fields list contains an empty
array entry, and which carries no status field. -/
def panicEnvelope : Value :=
  .obj [("response".data, .obj [("headers".data, .obj [("fields".data, .arr [.arr []])])])]

/-- HTTP-capable sandbox oracle whose handle-http export returns the
encoding of `panicEnvelope`. -/
def panicActor : WasmActor :=
  ⟨true, fun _ _ => .error .trap, fun _ _ => .ok (encodeV panicEnvelope)⟩

/-- An HTTP response envelope with an empty response object (no status, no
headers, no body) and null state. -/
def okEnvelope : Value :=
  .obj [("response".data, .obj []), ("state".data, .null)]

/-- HTTP-capable sandbox oracle whose handle-http export returns the
encoding of `okEnvelope`. -/
def status500Actor : WasmActor :=
  ⟨true, fun _ _ => .error .trap, fun _ _ => .ok (encodeV okEnvelope)⟩

/-- A concrete chain event used in counterexamples and witnesses. -/
def cexEvent : ChainEvent := ⟨⟨"noop".data, .null⟩, 0⟩

/-- A manifest that declares no interfaces (in particular not the HTTP
one) and has no HTTP port. -/
def baseOnlyConfig : ActorConfig := ⟨"demo".data, "actor.wasm".data, [], none⟩

/-- Test for a recorded chain event of type actor-message. -/
def isActorMessageRecord (a : HostAction) : Bool :=
  match a with
  | .recordChainEvent ev => ev.type_ == "actor-message".data
  | _ => false

/- Codec lemmas: the decimal printer, digit runs, string escaping, and
finally the full round trip decode (encodeV v) = some v. -/

theorem natCharsAux_stable : ∀ fuel fuel' n : Nat, n ≤ fuel → n ≤ fuel' →
    natCharsAux fuel n = natCharsAux fuel' n := by
  intro fuel
  induction fuel with
  | zero =>
    intro fuel' n hn _
    interval_cases n
    cases fuel' <;> simp [natCharsAux]
  | succ f ih =>
    intro fuel' n hn hn'
    by_cases h10 : n < 10
    · cases fuel' with
      | zero =>
        have hz : n = 0 := by omega
        subst hz
        simp [natCharsAux]
      | succ f' => simp [natCharsAux, h10]
    · cases fuel' with
      | zero => omega
      | succ f' =>
        simp only [natCharsAux, if_neg h10]
        rw [ih f' (n / 10) (by omega) (by omega)]

theorem natChars_eq (n : Nat) :
    natChars n = if n < 10 then [digitChar n] else natChars (n / 10) ++ [digitChar (n % 10)] := by
  by_cases h10 : n < 10
  · cases n with
    | zero => simp [natChars, natCharsAux]
    | succ m => simp [natChars, natCharsAux, h10]
  · unfold natChars
    cases n with
    | zero => omega
    | succ m =>
      simp only [natCharsAux, if_neg h10]
      rw [natCharsAux_stable m ((m + 1) / 10) ((m + 1) / 10) (by omega) (by omega)]

theorem digitChar_isDigit (d : Nat) (h : d < 10) :
    isDigit (digitChar d) = true ∧ digitVal (digitChar d) = d := by
  interval_cases d <;> exact ⟨by decide, by decide⟩

theorem natChars_ne_nil (n : Nat) : natChars n ≠ [] := by
  rw [natChars_eq]
  split <;> simp

theorem natChars_digits (n : Nat) : ∀ c ∈ natChars n, isDigit c = true := by
  induction n using Nat.strong_induction_on with
  | _ n ih =>
    rw [natChars_eq]
    by_cases h10 : n < 10
    · simp only [if_pos h10, List.mem_singleton]
      rintro c rfl
      exact (digitChar_isDigit n h10).1
    · simp only [if_neg h10, List.mem_append, List.mem_singleton]
      rintro c (hc | rfl)
      · exact ih (n / 10) (by omega) c hc
      · exact (digitChar_isDigit (n % 10) (by omega)).1

theorem natOfDigits_append_one (l : List Char) (c : Char) :
    natOfDigits (l ++ [c]) = natOfDigits l * 10 + digitVal c := by
  simp [natOfDigits, List.foldl_append]

theorem natOfDigits_natChars (n : Nat) : natOfDigits (natChars n) = n := by
  induction n using Nat.strong_induction_on with
  | _ n ih =>
    rw [natChars_eq]
    by_cases h10 : n < 10
    · simp only [if_pos h10]
      simp [natOfDigits, (digitChar_isDigit n h10).2]
    · simp only [if_neg h10, natOfDigits_append_one]
      rw [ih (n / 10) (by omega), (digitChar_isDigit (n % 10) (by omega)).2]
      omega

theorem Delim_not_digit : ∀ (rest : List Char), Delim rest →
    rest.takeWhile isDigit = [] ∧ rest.dropWhile isDigit = rest
  | [], _ => by simp
  | c :: t, h => by
    have hc : isDigit c = false := by
      rcases h with rfl | rfl | rfl <;> decide
    simp [List.takeWhile_cons, List.dropWhile_cons, hc]

theorem digits_split (ds rest : List Char) (hds : ∀ c ∈ ds, isDigit c = true)
    (hstop : rest.takeWhile isDigit = [] ∧ rest.dropWhile isDigit = rest) :
    (ds ++ rest).takeWhile isDigit = ds ∧ (ds ++ rest).dropWhile isDigit = rest := by
  induction ds with
  | nil => simpa using hstop
  | cons c t ih =>
    have h1 := hds c (List.mem_cons_self c t)
    have h2 := ih fun x hx => hds x (List.mem_cons_of_mem c hx)
    simp [List.takeWhile_cons, List.dropWhile_cons, h1, h2.1, h2.2]

theorem parseNat_natChars (n : Nat) (rest : List Char) (hrest : Delim rest) :
    parseNat (natChars n ++ rest) = some (n, rest) := by
  have h := digits_split (natChars n) rest (natChars_digits n) (Delim_not_digit rest hrest)
  simp [parseNat, h.1, h.2, natChars_ne_nil n, natOfDigits_natChars n,
    List.isEmpty_iff]

theorem hexVal_hexChar (d : Nat) (h : d < 16) : hexVal (hexChar d) = some d := by
  interval_cases d <;> decide

theorem pStr_quote (cs : List Char) : pStr (quoteChar :: cs) = some ([], cs) := by
  rw [pStr.eq_def]
  simp

theorem pStr_raw (c : Char) (cs : List Char) (hq : ¬ c = quoteChar) (hbs : ¬ c = backslashChar) :
    pStr (c :: cs) = (pStr cs).map (fun p => (c :: p.1, p.2)) := by
  rw [pStr.eq_def]
  simp [hq, hbs]

theorem pStr_escQuote (cs : List Char) :
    pStr (backslashChar :: quoteChar :: cs) = (pStr cs).map (fun p => (quoteChar :: p.1, p.2)) := by
  rw [pStr.eq_def]
  simp [show ¬ backslashChar = quoteChar by decide]

theorem pStr_escBs (cs : List Char) :
    pStr (backslashChar :: backslashChar :: cs)
      = (pStr cs).map (fun p => (backslashChar :: p.1, p.2)) := by
  rw [pStr.eq_def]
  simp [show ¬ backslashChar = quoteChar by decide]

theorem pStr_escU (h1 h2 h3 h4 : Char) (cs : List Char) (a b c2 d : Nat)
    (ha : hexVal h1 = some a) (hb : hexVal h2 = some b)
    (hc : hexVal h3 = some c2) (hd : hexVal h4 = some d) :
    pStr (backslashChar :: 'u' :: h1 :: h2 :: h3 :: h4 :: cs)
      = (pStr cs).map
          (fun p => (Char.ofNat (((a * 16 + b) * 16 + c2) * 16 + d) :: p.1, p.2)) := by
  rw [pStr.eq_def]
  simp [show ¬ backslashChar = quoteChar by decide,
    show ¬ ('u' : Char) = quoteChar by decide,
    show ¬ ('u' : Char) = backslashChar by decide, ha, hb, hc, hd]

theorem pStr_escapeList (s : List Char) : ∀ rest : List Char,
    pStr (escapeList s ++ quoteChar :: rest) = some (s, rest) := by
  induction s with
  | nil => intro rest; simpa [escapeList] using pStr_quote rest
  | cons c cs ih =>
    intro rest
    by_cases hbs : c = backslashChar
    · subst hbs
      have he : escapeChar backslashChar = [backslashChar, backslashChar] := by decide
      simp only [escapeList, he, List.cons_append, List.nil_append]
      rw [pStr_escBs, ih rest]
      rfl
    · by_cases hq : c = quoteChar
      · subst hq
        have he : escapeChar quoteChar = [backslashChar, quoteChar] := by decide
        simp only [escapeList, he, List.cons_append, List.nil_append]
        rw [pStr_escQuote, ih rest]
        rfl
      · by_cases hctl : c.toNat < 32
        · have h16a : c.toNat / 16 < 16 := by omega
          have h16b : c.toNat % 16 < 16 := by omega
          have he : escapeChar c
              = [backslashChar, 'u', '0', '0', hexChar (c.toNat / 16), hexChar (c.toNat % 16)] := by
            simp only [escapeChar, if_neg hbs, if_neg hq, if_pos hctl]
          simp only [escapeList, he, List.cons_append, List.nil_append]
          rw [pStr_escU _ _ _ _ _ 0 0 (c.toNat / 16) (c.toNat % 16) (by decide) (by decide)
            (hexVal_hexChar _ h16a) (hexVal_hexChar _ h16b), ih rest]
          have hcode : c.toNat / 16 * 16 + c.toNat % 16 = c.toNat := by omega
          simp [hcode, Char.ofNat_toNat]
        · have he : escapeChar c = [c] := by
            simp only [escapeChar, if_neg hbs, if_neg hq, if_neg hctl]
          simp only [escapeList, he, List.cons_append, List.nil_append]
          rw [pStr_raw c _ hq hbs, ih rest]
          rfl



theorem isDigit_heads (c : Char) (hc : isDigit c = true) :
    ¬ c = 'n' ∧ ¬ c = 't' ∧ ¬ c = 'f' ∧ ¬ c = quoteChar ∧ ¬ c = '-' ∧ ¬ c = ']' := by
  refine ⟨?_, ?_, ?_, ?_, ?_, ?_⟩ <;> (rintro rfl; exact absurd hc (by decide))

theorem natChars_cons (m : Nat) : ∃ c t, natChars m = c :: t ∧ isDigit c = true := by
  rcases h : natChars m with _ | ⟨c, t⟩
  · exact absurd h (natChars_ne_nil m)
  · exact ⟨c, t, rfl, natChars_digits m c (h ▸ List.mem_cons_self c t)⟩

theorem encodeV_head (v : Value) : ∃ c t, encodeV v = c :: t ∧ ¬ c = ']' := by
  cases v with
  | null => exact ⟨'n', _, rfl, by decide⟩
  | bool b => cases b with
    | true => exact ⟨'t', _, rfl, by decide⟩
    | false => exact ⟨'f', _, rfl, by decide⟩
  | num n => cases n with
    | ofNat m =>
      obtain ⟨c, t, hm, hc⟩ := natChars_cons m
      exact ⟨c, t, by simp [encodeV, intChars, hm], (isDigit_heads c hc).2.2.2.2.2⟩
    | negSucc m =>
      exact ⟨'-', natChars (m + 1), by simp [encodeV, intChars], by decide⟩
  | str s => exact ⟨quoteChar, escapeList s ++ [quoteChar], by simp [encodeV, encodeStr], by decide⟩
  | arr l => cases l with
    | nil => exact ⟨'[', _, rfl, by decide⟩
    | cons x xs => exact ⟨'[', _, rfl, by decide⟩
  | obj l => cases l with
    | nil => exact ⟨lbraceChar, _, rfl, by decide⟩
    | cons f fs => exact ⟨lbraceChar, _, rfl, by decide⟩

theorem Delim_encodeElems (xs : List Value) (rest : List Char) :
    Delim (encodeElems xs ++ ']' :: rest) := by
  cases xs with
  | nil => simp [encodeElems, Delim]
  | cons y ys => simp [encodeElems, Delim]

theorem Delim_encodeFields (gs : List (List Char × Value)) (rest : List Char) :
    Delim (encodeFields gs ++ rbraceChar :: rest) := by
  cases gs with
  | nil => simp [encodeFields, Delim]
  | cons g2 gs2 => simp [encodeFields, Delim]

mutual
theorem pj_encV : ∀ (v : Value) (fuel : Nat) (rest : List Char),
    (encodeV v).length < fuel → Delim rest →
    pj fuel .val (encodeV v ++ rest) = some (.val v rest)
  | .null, fuel, rest, hf, _ => by
    cases fuel with
    | zero => simp [encodeV] at hf
    | succ f => simp [encodeV, pj, pjValStep]
  | .bool true, fuel, rest, hf, _ => by
    cases fuel with
    | zero => simp [encodeV] at hf
    | succ f => simp [encodeV, pj, pjValStep]
  | .bool false, fuel, rest, hf, _ => by
    cases fuel with
    | zero => simp [encodeV] at hf
    | succ f => simp [encodeV, pj, pjValStep]
  | .num (.ofNat m), fuel, rest, hf, hr => by
    cases fuel with
    | zero => omega
    | succ f =>
      obtain ⟨c, t, hm, hc⟩ := natChars_cons m
      obtain ⟨h1, h2, h3, h4, h5, _⟩ := isDigit_heads c hc
      have harg : encodeV (.num (.ofNat m)) ++ rest = c :: (t ++ rest) := by
        simp [encodeV, intChars, hm]
      rw [harg]
      have hback : c :: (t ++ rest) = natChars m ++ rest := by simp [hm]
      simp only [pj, pjValStep, if_neg h1, if_neg h2, if_neg h3, if_neg h4, if_neg h5,
        if_pos hc]
      rw [hback, parseNat_natChars m rest hr]
      rfl
  | .num (.negSucc m), fuel, rest, hf, hr => by
    cases fuel with
    | zero => omega
    | succ f =>
      have harg : encodeV (.num (.negSucc m)) ++ rest = '-' :: (natChars (m + 1) ++ rest) := by
        simp [encodeV, intChars]
      rw [harg]
      simp only [pj, pjValStep, if_neg (by decide : ¬ ('-' : Char) = 'n'),
        if_neg (by decide : ¬ ('-' : Char) = 't'), if_neg (by decide : ¬ ('-' : Char) = 'f'),
        if_neg (by decide : ¬ ('-' : Char) = quoteChar), if_pos rfl]
      rw [parseNat_natChars (m + 1) rest hr]
      simp [Int.negSucc_eq]
  | .str s, fuel, rest, hf, _ => by
    cases fuel with
    | zero => omega
    | succ f =>
      have harg : encodeV (.str s) ++ rest = quoteChar :: (escapeList s ++ quoteChar :: rest) := by
        simp [encodeV, encodeStr]
      rw [harg]
      simp only [pj, pjValStep, if_neg (by decide : ¬ quoteChar = 'n'),
        if_neg (by decide : ¬ quoteChar = 't'), if_neg (by decide : ¬ quoteChar = 'f'),
        if_pos rfl]
      rw [pStr_escapeList s rest]
      rfl
  | .arr [], fuel, rest, hf, _ => by
    cases fuel with
    | zero => simp [encodeV] at hf
    | succ f =>
      simp [encodeV, pj, pjValStep, show ¬ ('[' : Char) = quoteChar by decide,
        show isDigit '[' = false by decide]
  | .arr (x :: xs), fuel, rest, hf, _ => by
    cases fuel with
    | zero => omega
    | succ f =>
      obtain ⟨c, t, hx, hc9⟩ := encodeV_head x
      have harg : encodeV (.arr (x :: xs)) ++ rest
          = '[' :: (c :: (t ++ (encodeElems xs ++ ']' :: rest))) := by
        simp [encodeV, hx]
      rw [harg]
      simp only [pj, pjValStep, if_neg (by decide : ¬ ('[' : Char) = 'n'),
        if_neg (by decide : ¬ ('[' : Char) = 't'), if_neg (by decide : ¬ ('[' : Char) = 'f'),
        if_neg (by decide : ¬ ('[' : Char) = quoteChar),
        if_neg (by decide : ¬ ('[' : Char) = '-'),
        if_neg (by decide : ¬ isDigit '[' = true), if_pos rfl, if_neg hc9]
      have hback : c :: (t ++ (encodeElems xs ++ ']' :: rest))
          = encodeV x ++ (encodeElems xs ++ ']' :: rest) := by
        simp [hx]
      rw [hback, pj_encElems x xs f rest (by
        simp only [encodeV, List.length_cons, List.length_append] at hf ⊢
        omega)]
      rfl
  | .obj [], fuel, rest, hf, _ => by
    cases fuel with
    | zero => simp [encodeV] at hf
    | succ f =>
      simp [encodeV, pj, pjValStep, show ¬ lbraceChar = 'n' by decide,
        show ¬ lbraceChar = 't' by decide, show ¬ lbraceChar = 'f' by decide,
        show ¬ lbraceChar = quoteChar by decide, show ¬ lbraceChar = '-' by decide,
        show isDigit lbraceChar = false by decide, show ¬ lbraceChar = '[' by decide]
  | .obj (g :: gs), fuel, rest, hf, _ => by
    cases fuel with
    | zero => omega
    | succ f =>
      have harg : encodeV (.obj (g :: gs)) ++ rest
          = lbraceChar :: (quoteChar ::
              (escapeList g.1 ++ (quoteChar ::
                (':' :: (encodeV g.2 ++ (encodeFields gs ++ rbraceChar :: rest)))))) := by
        simp [encodeV, encodeStr]
      rw [harg]
      simp only [pj, pjValStep, if_neg (by decide : ¬ lbraceChar = 'n'),
        if_neg (by decide : ¬ lbraceChar = 't'), if_neg (by decide : ¬ lbraceChar = 'f'),
        if_neg (by decide : ¬ lbraceChar = quoteChar),
        if_neg (by decide : ¬ lbraceChar = '-'),
        if_neg (by decide : ¬ isDigit lbraceChar = true),
        if_neg (by decide : ¬ lbraceChar = '['), if_pos rfl,
        if_neg (by decide : ¬ quoteChar = rbraceChar)]
      have hback : quoteChar ::
            (escapeList g.1 ++ (quoteChar ::
              (':' :: (encodeV g.2 ++ (encodeFields gs ++ rbraceChar :: rest)))))
          = encodeStr g.1 ++ (':' :: (encodeV g.2 ++ (encodeFields gs ++ rbraceChar :: rest))) := by
        simp [encodeStr]
      rw [hback, pj_encFields g.1 g.2 gs f rest (by
        simp only [encodeV, encodeStr, List.length_cons, List.length_append] at hf ⊢
        omega)]
      rfl
termination_by v fuel rest hf hr => fuel
theorem pj_encElems : ∀ (x : Value) (xs : List Value) (fuel : Nat) (rest : List Char),
    (encodeV x).length + (encodeElems xs).length + 1 < fuel →
    pj fuel .elems (encodeV x ++ (encodeElems xs ++ ']' :: rest)) = some (.elems (x :: xs) rest)
  | x, xs, fuel, rest, hf => by
    cases fuel with
    | zero => omega
    | succ f =>
      have hx := pj_encV x f (encodeElems xs ++ ']' :: rest)
        (by omega) (Delim_encodeElems xs rest)
      rw [show pj (f + 1) .elems (encodeV x ++ (encodeElems xs ++ ']' :: rest))
          = pjElemsStep (pj f .val) (pj f .elems)
              (encodeV x ++ (encodeElems xs ++ ']' :: rest)) from rfl]
      rw [pjElemsStep, hx]
      cases xs with
      | nil =>
        simp [encodeElems, resVal, show ¬ (']' : Char) = ',' by decide]
      | cons y ys =>
        have hy : encodeElems (y :: ys) ++ ']' :: rest
            = ',' :: (encodeV y ++ (encodeElems ys ++ ']' :: rest)) := by
          simp [encodeElems]
        simp only [resVal]
        rw [hy]
        simp only [if_pos rfl]
        rw [pj_encElems y ys f rest (by
          simp only [encodeElems, List.length_cons, List.length_append] at hf ⊢
          omega)]
        simp [resElems]
termination_by x xs fuel rest hf => fuel
theorem pj_encFields : ∀ (k : List Char) (w : Value) (gs : List (List Char × Value))
    (fuel : Nat) (rest : List Char),
    (encodeStr k).length + (encodeV w).length + (encodeFields gs).length + 2 < fuel →
    pj fuel .fields (encodeStr k ++ (':' :: (encodeV w ++ (encodeFields gs ++ rbraceChar :: rest))))
      = some (.fields ((k, w) :: gs) rest)
  | k, w, gs, fuel, rest, hf => by
    cases fuel with
    | zero => omega
    | succ f =>
      have hw := pj_encV w f (encodeFields gs ++ rbraceChar :: rest)
        (by omega) (Delim_encodeFields gs rest)
      have harg : encodeStr k ++ (':' :: (encodeV w ++ (encodeFields gs ++ rbraceChar :: rest)))
          = quoteChar :: (escapeList k ++ quoteChar ::
              (':' :: (encodeV w ++ (encodeFields gs ++ rbraceChar :: rest)))) := by
        simp [encodeStr]
      rw [show pj (f + 1) .fields
            (encodeStr k ++ (':' :: (encodeV w ++ (encodeFields gs ++ rbraceChar :: rest))))
          = pjFieldsStep (pj f .val) (pj f .fields)
              (encodeStr k ++ (':' :: (encodeV w ++ (encodeFields gs ++ rbraceChar :: rest))))
          from rfl, harg]
      simp only [pjFieldsStep, if_pos rfl]
      rw [pStr_escapeList k (':' :: (encodeV w ++ (encodeFields gs ++ rbraceChar :: rest)))]
      simp only [if_pos rfl]
      rw [hw]
      simp only [resVal]
      cases gs with
      | nil =>
        simp [encodeFields, show ¬ rbraceChar = ',' by decide]
      | cons g2 gs2 =>
        have hg : encodeFields (g2 :: gs2) ++ rbraceChar :: rest
            = ',' :: (encodeStr g2.1 ++
                (':' :: (encodeV g2.2 ++ (encodeFields gs2 ++ rbraceChar :: rest)))) := by
          simp [encodeFields]
        rw [hg]
        simp only [if_pos rfl]
        rw [pj_encFields g2.1 g2.2 gs2 f rest (by
          simp only [encodeFields, encodeStr, List.length_cons, List.length_append] at hf ⊢
          omega)]
        simp [resFields]
termination_by k w gs fuel rest hf => fuel
end

theorem decode_encodeV (v : Value) : decode (encodeV v) = some v := by
  have h := pj_encV v ((encodeV v).length + 1) [] (by omega) trivial
  rw [List.append_nil] at h
  simp [decode, h]

/- Run-loop lemmas: decomposition of ActorRuntime::run over the message
sequence, both on an all-success prefix and at the first failure. -/

theorem runLoop_append_of_ok (a : WasmActor) (pre : List ActorMessage) :
    ∀ (s0 : Value) (rest : List ActorMessage), (runLoop a s0 pre).2.2 = none →
    runLoop a s0 (pre ++ rest)
      = ((runLoop a s0 pre).1 ++ (runLoop a (runLoop a s0 pre).2.1 rest).1,
         (runLoop a (runLoop a s0 pre).2.1 rest).2) := by
  induction pre with
  | nil => intro s0 rest _; simp [runLoop]
  | cons m ms ih =>
    intro s0 rest h
    cases hm : processMsg a s0 m with
    | error e => simp [runLoop, hm] at h
    | ok pr =>
      have h2 : (runLoop a pr.2 ms).2.2 = none := by
        simpa [runLoop, hm] using h
      simp only [List.cons_append, runLoop, hm, List.append_eq]
      rw [ih pr.2 rest h2]
      simp

theorem runLoop_fail_at (a : WasmActor) (s0 : Value) (pre : List ActorMessage)
    (m : ActorMessage) (rest : List ActorMessage) (e : Failure)
    (hpre : (runLoop a s0 pre).2.2 = none)
    (hm : processMsg a (runLoop a s0 pre).2.1 m = .error e) :
    runLoop a s0 (pre ++ m :: rest)
      = ((runLoop a s0 pre).1, (runLoop a s0 pre).2.1, some e) := by
  rw [runLoop_append_of_ok a pre s0 (m :: rest) hpre]
  simp [runLoop, hm]

/-- C1 counterexample: with a sandbox oracle that traps on the first
message (the four-byte encoding of null) but would handle the second, the
run loop delivers no reply at all (the error is not reported to the first
message's reply slot) and terminates with the error, so the second
message, which processed alone yields a reply, is never processed. -/
theorem run_error_stops_loop_cex :
    (runLoop mixedActor .null [.regular .null true, .regular (.str []) true]).1 = [] ∧
    (runLoop mixedActor .null [.regular .null true, .regular (.str []) true]).2.2
      = some .trap ∧
    runLoop mixedActor .null [.regular (.str []) true]
      = ([.value (.str [])], .str [], none) :=
  ⟨rfl, rfl, rfl⟩

/-- C1 amended: when processing of a dequeued message fails after an
all-success prefix, ActorRuntime::run does not report the error to that
message's reply slot and does not continue: it terminates with the error,
keeping only the prefix's replies and the prefix's committed state, and
the remaining mailbox messages are never processed. -/
theorem run_error_terminates_loop (a : WasmActor) (s0 : Value) (pre : List ActorMessage)
    (m : ActorMessage) (rest : List ActorMessage) (e : Failure)
    (hpre : (runLoop a s0 pre).2.2 = none)
    (hm : processMsg a (runLoop a s0 pre).2.1 m = .error e) :
    runLoop a s0 (pre ++ m :: rest)
      = ((runLoop a s0 pre).1, (runLoop a s0 pre).2.1, some e) :=
  runLoop_fail_at a s0 pre m rest e hpre hm

/-- C1 amended, witnessed at the always-trapping oracle with an empty
prefix and one further queued message. -/
theorem run_error_terminates_loop_witness :
    (runLoop trapActor .null []).2.2 = none ∧
    processMsg trapActor (runLoop trapActor .null []).2.1 (.regular .null true)
      = .error .trap ∧
    runLoop trapActor .null ([] ++ .regular .null true :: [.regular .null true])
      = ((runLoop trapActor .null []).1, (runLoop trapActor .null []).2.1, some .trap) :=
  ⟨rfl, rfl,
   run_error_terminates_loop trapActor .null [] (.regular .null true) [.regular .null true]
     .trap rfl rfl⟩

/-- C2: the run loop processes enqueued messages in FIFO order with
serial state commits: running any split queue equals running the prefix
first and then, from exactly the state committed by the prefix, the
remainder; the replies concatenate in queue order, so the invocation for
message N+1 starts from the state committed by message N and no two
invocations observe the same current state. -/
theorem run_fifo_serial (a : WasmActor) (s0 : Value) (pre rest : List ActorMessage)
    (h : (runLoop a s0 pre).2.2 = none) :
    runLoop a s0 (pre ++ rest)
      = ((runLoop a s0 pre).1 ++ (runLoop a (runLoop a s0 pre).2.1 rest).1,
         (runLoop a (runLoop a s0 pre).2.1 rest).2) :=
  runLoop_append_of_ok a pre s0 rest h

/-- C2, witnessed at the echoing oracle on a two-message queue. -/
theorem run_fifo_serial_witness :
    (runLoop echoActor .null [.regular (.str []) true]).2.2 = none ∧
    runLoop echoActor .null ([.regular (.str []) true] ++ [.regular .null false])
      = ((runLoop echoActor .null [.regular (.str []) true]).1
          ++ (runLoop echoActor
                (runLoop echoActor .null [.regular (.str []) true]).2.1
                [.regular .null false]).1,
         (runLoop echoActor
            (runLoop echoActor .null [.regular (.str []) true]).2.1
            [.regular .null false]).2) :=
  ⟨rfl, run_fifo_serial echoActor .null [.regular (.str []) true] [.regular .null false] rfl⟩

/-- C3 (code bug): WasmActor::handle_message returns the unmodified input
message as the output, not a result computed by the component: here the
component's handle export computes the state with count one, yet the
output returned to the caller is the input message itself. -/
theorem handle_message_echoes_input :
    incActor.handle_message (.obj [("op".data, .str "inc".data)])
        (.obj [("count".data, .num 0)])
      = .ok (.obj [("op".data, .str "inc".data)], .obj [("count".data, .num 1)]) :=
  rfl

/-- C4: when processing of a message fails after an all-success prefix,
the runtime's current state equals the state from before the failed call:
nothing of the failed step is committed. -/
theorem state_unchanged_on_failure (a : WasmActor) (s0 : Value) (pre : List ActorMessage)
    (m : ActorMessage) (rest : List ActorMessage) (e : Failure)
    (hpre : (runLoop a s0 pre).2.2 = none)
    (hm : processMsg a (runLoop a s0 pre).2.1 m = .error e) :
    (runLoop a s0 (pre ++ m :: rest)).2.1 = (runLoop a s0 pre).2.1 := by
  rw [runLoop_fail_at a s0 pre m rest e hpre hm]

/-- C4, witnessed at the oracle that traps on the encoding of null after
one successfully processed message. -/
theorem state_unchanged_on_failure_witness :
    (runLoop mixedActor .null [.regular (.str []) true]).2.2 = none ∧
    processMsg mixedActor (runLoop mixedActor .null [.regular (.str []) true]).2.1
        (.regular .null true) = .error .trap ∧
    (runLoop mixedActor .null ([.regular (.str []) true] ++ .regular .null true :: [])).2.1
      = (runLoop mixedActor .null [.regular (.str []) true]).2.1 :=
  ⟨rfl, rfl,
   state_unchanged_on_failure mixedActor .null [.regular (.str []) true]
     (.regular .null true) [] .trap rfl rfl⟩

theorem emitAll_max (ce : ChainEmitter) (es : List ChainEvent) :
    (ce.emitAll es).max_history = ce.max_history := by
  induction es generalizing ce with
  | nil => rfl
  | cons e es ih =>
    have hstep : ce.emitAll (e :: es) = (ce.emit e).emitAll es := rfl
    rw [hstep, ih]
    rfl

theorem emitAll_snoc (ce : ChainEmitter) (es : List ChainEvent) (e : ChainEvent) :
    ce.emitAll (es ++ [e]) = (ce.emitAll es).emit e := by
  simp [ChainEmitter.emitAll, List.foldl_append]

theorem history_emitAll (N : Nat) (hN : 1 ≤ N) (es : List ChainEvent) :
    ((ChainEmitter.new N).emitAll es).history = es.drop (es.length - N) := by
  induction es using List.reverseRecOn with
  | nil => simp [ChainEmitter.emitAll, ChainEmitter.new]
  | append_singleton es e ih =>
    rw [emitAll_snoc, ChainEmitter.emit, emitAll_max, ih]
    simp only [ChainEmitter.new]
    by_cases hLN : N ≤ es.length
    · rw [if_pos (by simp [List.length_drop]; omega)]
      rw [List.drop_drop, List.drop_append_eq_append_drop]
      have h0 : es.length + 1 - N - es.length = 0 := by omega
      simp [h0]
      congr 1
      omega
    · rw [if_neg (by simp [List.length_drop]; omega)]
      have h0 : es.length - N = 0 := by omega
      have h1 : es.length + 1 - N = 0 := by omega
      simp [h0, h1]

/-- C5 counterexample: a ChainEmitter of capacity zero still retains the
most recent event, so after one emit its history is that event rather
than the last zero events (the empty list) the claim asks for. -/
theorem chain_capacity_zero_cex :
    ((ChainEmitter.new 0).emitAll [cexEvent]).get_history = [cexEvent] ∧
    [cexEvent] ≠ (List.drop 1 [cexEvent] : List ChainEvent) :=
  ⟨rfl, by simp⟩

/-- C5 amended: for a ChainEmitter of capacity N with N at least one,
after emitting N + k events with k positive, get_history returns exactly
the last N emitted events, oldest first (the k oldest evicted).  With
capacity zero the buffer instead retains the single most recent event. -/
theorem chain_history_last_n (N k : Nat) (es : List ChainEvent)
    (hN : 1 ≤ N) (hlen : es.length = N + k) (hk : 0 < k) :
    ((ChainEmitter.new N).emitAll es).get_history = es.drop k := by
  rw [ChainEmitter.get_history, history_emitAll N hN es, hlen]
  congr 1
  omega

/-- C5 amended, witnessed at capacity one with two emitted events. -/
theorem chain_history_last_n_witness :
    (([cexEvent, cexEvent] : List ChainEvent).length = 1 + 1) ∧
    ((ChainEmitter.new 1).emitAll [cexEvent, cexEvent]).get_history
      = List.drop 1 [cexEvent, cexEvent] :=
  ⟨rfl, chain_history_last_n 1 1 [cexEvent, cexEvent] (by omega) rfl (by omega)⟩

/-- C6: for every call of the send host function whose payload decodes as
a message, the effect sequence contains exactly one actor-message chain
record, carrying the address and the message, and that record precedes
the outbound HTTP delivery to the address. -/
theorem send_records_before_delivery (address payload : List Char) (m : Value)
    (h : decode payload = some m) :
    ∃ acts, send address payload = .ok acts ∧
      acts.filter isActorMessageRecord
        = [.recordChainEvent (actorMessageEvent address m)] ∧
      ∃ i j, i < j ∧
        acts.get? i = some (.recordChainEvent (actorMessageEvent address m)) ∧
        acts.get? j = some (.httpPost address m) := by
  refine ⟨[.recordChainEvent (actorMessageEvent address m), .httpPost address m],
    ?_, ?_, 0, 1, by omega, rfl, rfl⟩
  · simp [send, h]
  · simp [List.filter, isActorMessageRecord, actorMessageEvent, beq_self_eq_true]

/-- C6, witnessed at the spec's scenario payload. -/
theorem send_records_before_delivery_witness :
    decode (encodeV (.obj [("hello".data, .str "world".data)]))
      = some (.obj [("hello".data, .str "world".data)]) ∧
    ∃ acts, send "http://peer/x".data
        (encodeV (.obj [("hello".data, .str "world".data)])) = .ok acts ∧
      acts.filter isActorMessageRecord
        = [.recordChainEvent (actorMessageEvent "http://peer/x".data
            (.obj [("hello".data, .str "world".data)]))] ∧
      ∃ i j, i < j ∧
        acts.get? i = some (.recordChainEvent (actorMessageEvent "http://peer/x".data
          (.obj [("hello".data, .str "world".data)]))) ∧
        acts.get? j = some (.httpPost "http://peer/x".data
          (.obj [("hello".data, .str "world".data)])) :=
  ⟨decode_encodeV _,
   send_records_before_delivery "http://peer/x".data _
     (.obj [("hello".data, .str "world".data)]) (decode_encodeV _)⟩

/-- C7 counterexample: on a decodable payload the Base capability's send
host function records and forwards, while the Http capability's panics,
so the two registered send host functions do not behave the same. -/
theorem http_send_differs_from_base_cex :
    httpSendHost "a".data (encodeV .null) ≠ baseSendHost "a".data (encodeV .null) := by
  simp [httpSendHost, baseSendHost, send, decode_encodeV]

/-- C7 amended: the send host function the Http capability registers does
not perform the Base capability's send behavior: it hits the todo-macro
and panics on every input, performing no effect at all. -/
theorem http_send_always_panics (address msg : List Char) :
    httpSendHost address msg = .error .panicked :=
  rfl

/-- C8: invoking handle_http on an actor built from a manifest that does
not declare the HTTP interface fails with UnsupportedCapability for every
sandbox oracle (so the sandbox is never consulted), and the run loop
leaves the current state unchanged on such a message. -/
theorem handle_http_unsupported_capability (cfg : ActorConfig)
    (hf hh : List Char → List Char → Except Failure (List Char))
    (method uri : List Char) (headers : List (List Char × List Char))
    (body : Option (List Nat)) (state : Value) (rest : List ActorMessage)
    (hdecl : ¬ httpInterfaceName ∈ cfg.interfaces) :
    (WasmActor.fromConfig cfg hf hh).handle_http method uri headers body state
        = .error .unsupportedCapability ∧
    runLoop (WasmActor.fromConfig cfg hf hh) state (.http method uri headers body :: rest)
      = ([], state, some .unsupportedCapability) := by
  have hsup : (WasmActor.fromConfig cfg hf hh).supports_http = false := by
    simp only [WasmActor.fromConfig, ActorConfig.supports_http]
    simp [List.contains]
    exact fun hx => absurd hx hdecl
  have h1 : (WasmActor.fromConfig cfg hf hh).handle_http method uri headers body state
      = .error .unsupportedCapability := by
    simp [WasmActor.handle_http, hsup]
  refine ⟨h1, ?_⟩
  simp [runLoop, processMsg, h1]

/-- C8, witnessed at a manifest declaring no interfaces. -/
theorem handle_http_unsupported_capability_witness :
    ¬ httpInterfaceName ∈ baseOnlyConfig.interfaces ∧
    ((WasmActor.fromConfig baseOnlyConfig (fun _ _ => .ok []) (fun _ _ => .ok [])).handle_http
        "GET".data "/".data [] none .null = .error .unsupportedCapability ∧
      runLoop (WasmActor.fromConfig baseOnlyConfig (fun _ _ => .ok []) (fun _ _ => .ok []))
          .null [.http "GET".data "/".data [] none]
        = ([], .null, some .unsupportedCapability)) :=
  ⟨by simp [baseOnlyConfig],
   handle_http_unsupported_capability baseOnlyConfig _ _ "GET".data "/".data [] none .null []
     (by simp [baseOnlyConfig])⟩

/-- C9: the structured-value byte codec used for state and message
payloads is lossless: decoding the encoding of any supported value (null,
bool, number, string, array, object, nested) returns that value. -/
theorem decode_encode_roundtrip (v : Value) : decode (encodeV v) = some v :=
  decode_encodeV v

/-- C10 counterexample: a decodable envelope without a status field whose
headers fields list contains an empty array entry makes handle_http panic
(the indexing of the entry's first element), so handle_http does not
succeed with status 500 on every such envelope. -/
theorem handle_http_header_panic_cex :
    decode (encodeV panicEnvelope) = some panicEnvelope ∧
    asU64 ((panicEnvelope.index "response".data).index "status".data) = none ∧
    panicActor.handle_http "POST".data "/".data [] none .null = .error .panicked :=
  ⟨rfl, rfl, rfl⟩

/-- C10 amended: when the handle-http result decodes as an envelope whose
response.status is absent or not an unsigned integer, and extracting the
response headers does not panic, handle_http succeeds and substitutes the
default status 500. -/
theorem handle_http_status_default_500 (a : WasmActor)
    (method uri : List Char) (headers : List (List Char × List Char))
    (body : Option (List Nat)) (state : Value) (bs : List Char) (env : Value)
    (hdrs : List (List Char × List Char))
    (hsup : a.supports_http = true)
    (hcall : a.handleHttpFn (encodeV (requestValue method uri headers body)) (encodeV state)
      = .ok bs)
    (hdec : decode bs = some env)
    (hstatus : asU64 ((env.index "response".data).index "status".data) = none)
    (hhdr : extractHeaders (((env.index "response".data).index "headers".data).index
      "fields".data) = .ok hdrs) :
    a.handle_http method uri headers body state
      = .ok (500, hdrs, extractBody ((env.index "response".data).index "body".data),
             env.index "state".data) := by
  simp [WasmActor.handle_http, hsup, hcall, hdec, hstatus, hhdr]

/-- C10 amended, witnessed at an envelope with an empty response object. -/
theorem handle_http_status_default_500_witness :
    status500Actor.supports_http = true ∧
    decode (encodeV okEnvelope) = some okEnvelope ∧
    asU64 ((okEnvelope.index "response".data).index "status".data) = none ∧
    status500Actor.handle_http "GET".data "/x".data [] none .null
      = .ok (500, [], extractBody ((okEnvelope.index "response".data).index "body".data),
             okEnvelope.index "state".data) :=
  ⟨rfl, decode_encodeV _, rfl,
   handle_http_status_default_500 status500Actor "GET".data "/x".data [] none .null
     (encodeV okEnvelope) okEnvelope [] rfl rfl (decode_encodeV _) rfl rfl⟩
